import Mathlib

/-!
Verification development for the Notion-to-static-HTML sync script of this
repository (the current script variant). The definitions below are a shallow
embedding of the script's image cache resolver (`downloadImage`), rich-text
renderer (`richTextToHtml`), block-tree renderer (`blocksToHtml`) and slug
generator (`slugify`); the theorems at the end check the design
specification's claims against them.
-/

namespace NotionSync

/-! ## String helpers

The script manipulates strings through JS `String#replace` with global
single-character patterns; we model that on `List Char`. -/

/-- JS `s.replace(/c/g, r)` for a single-character pattern `c`: every
occurrence of `c` is replaced by the string `r`. -/
def replaceCharL (c : Char) (r : List Char) : List Char → List Char
  | [] => []
  | ch :: rest =>
    if ch = c then r ++ replaceCharL c r rest else ch :: replaceCharL c r rest

/-- `replace(/&/g,'&amp;').replace(/</g,'&lt;').replace(/>/g,'&gt;')` —
the HTML escaping used for code-block text (and the first three steps of
the rich-text escaping). -/
def escAmpLtGtL (l : List Char) : List Char :=
  replaceCharL '>' "&gt;".toList
    (replaceCharL '<' "&lt;".toList
      (replaceCharL '&' "&amp;".toList l))

/-- String-level version of `escAmpLtGtL`. -/
def escapeHtml (s : String) : String :=
  String.mk (escAmpLtGtL s.toList)

/-- The full escaping pipeline of a plain rich-text span:
escape `&`, `<`, `>`, then `replace(/\n/g, '<br>')`. -/
def escapeThenBr (s : String) : String :=
  String.mk (replaceCharL '\n' "<br>".toList (escAmpLtGtL s.toList))

/-- `expr.replace(/"/g, '&quot;')` used for equation data attributes. -/
def escapeQuotes (s : String) : String :=
  String.mk (replaceCharL '"' "&quot;".toList s.toList)

/-- Template-literal wrapper `<tag>content</tag>`. -/
def wrapTag (tag content : String) : String :=
  "<" ++ tag ++ ">" ++ content ++ "</" ++ tag ++ ">"

/-! ## slugify -/

/-- The character class `[a-z0-9]` of the slugify regex. -/
def isAlnumChar (c : Char) : Bool :=
  ('a' ≤ c && c ≤ 'z') || ('0' ≤ c && c ≤ '9')

/-- `replace(/[^a-z0-9]+/g, '-')`: each maximal run of characters outside
`[a-z0-9]` becomes one hyphen. The flag records whether the current
position is inside a run that has already emitted its hyphen. -/
def collapseRuns : Bool → List Char → List Char
  | _, [] => []
  | inRun, c :: rest =>
    if isAlnumChar c then c :: collapseRuns false rest
    else if inRun then collapseRuns true rest
    else '-' :: collapseRuns true rest

/-- One half of `replace(/(^-|-$)/g, '')`: the regex removes at most one
leading hyphen. -/
def dropLeadHyphen : List Char → List Char
  | '-' :: rest => rest
  | l => l

/-- `replace(/(^-|-$)/g, '')`: remove one leading and one trailing hyphen
(the trailing one via reversal). -/
def stripEdgeHyphens (l : List Char) : List Char :=
  (dropLeadHyphen (dropLeadHyphen l).reverse).reverse

/-- `slugify(text)`: lower-case, collapse non-alphanumeric runs to
hyphens, strip edge hyphens. `String#toLowerCase` is modelled
per character by `Char.toLower` (ASCII case map; a non-ASCII letter is
collapsed to a hyphen by the next step either way). -/
def slugify (s : String) : String :=
  String.mk (stripEdgeHyphens (collapseRuns false (s.toList.map Char.toLower)))

/-! ## Image cache resolver -/

/-- `imageUrl.split('?')[0]`: the part of the locator before the first `?`. -/
def stripQuery (s : String) : String :=
  String.mk (s.toList.takeWhile (fun c => c != '?'))

/-- The last `/`-separated component of a path; `path.extname` looks only
at it. -/
def lastSegment (l : List Char) : List Char :=
  (l.reverse.takeWhile (fun c => c != '/')).reverse

/-- Node's `path.extname`: the suffix of the basename starting at its last
dot; empty when the basename has no dot or only a leading dot (dotfile). -/
def extname (p : String) : String :=
  let base := lastSegment p.toList
  let afterRev := base.reverse.takeWhile (fun c => c != '.')
  if afterRev.length = base.length then ""
  else if base.length - afterRev.length - 1 = 0 then ""
  else String.mk ('.' :: afterRev.reverse)

/-- The extension computed by `downloadImage`:
`path.extname(urlPath).toLowerCase() || '.png'`, then the `.png` fallback
when the extracted token is longer than 5 characters. -/
def extOf (urlPath : String) : String :=
  let e := String.mk ((extname urlPath).toList.map Char.toLower)
  let e := if e = "" then ".png" else e
  if 5 < e.length then ".png" else e

/-- The local filename `{slug}-{urlHash}{ext}` computed by `downloadImage`:
the hash is taken over the query-stripped locator and truncated to 12 hex
characters. `md5hex` stands for the external
`crypto.createHash('md5').update(path).digest('hex')` call. -/
def localFilename (md5hex : String → String) (imageUrl slug : String) : String :=
  let urlPath := stripQuery imageUrl
  let urlHash := (md5hex urlPath).take 12
  slug ++ "-" ++ urlHash ++ extOf urlPath

/-- The filesystem visible to `downloadImage`: a finite map from paths to
file contents. -/
abbrev Fs : Type := List (String × String)

/-- `fs.existsSync(p)`. -/
def fsExistsSync (fs : Fs) (p : String) : Bool :=
  fs.any (fun e => e.1 = p)

/-- Creating or truncating the file at `p` with the given content
(`fs.createWriteStream` and the piped response body). -/
def fsWrite (fs : Fs) (p content : String) : Fs :=
  (p, content) :: fs.filter (fun e => e.1 ≠ p)

/-- `fs.unlink(p)`. -/
def fsUnlink (fs : Fs) (p : String) : Fs :=
  fs.filter (fun e => e.1 ≠ p)

/-- `path.join(IMAGES_DIR, filename)`, with the script directory elided:
`IMAGES_DIR` is `thoughts/images` under it. -/
def imagesDirPath (filename : String) : String :=
  "thoughts/images/" ++ filename

/-- One HTTP exchange as `downloadImage` observes it: a response carrying
a status code, a `Location` header and a body, or a transport-level error
(the request's `error` event). -/
inductive HttpReply where
  | response (statusCode : Nat) (location : String) (body : String)
  | transportError
deriving DecidableEq

/-- Result of `downloadImage`: `ok` is the resolved `{path, skipped}`
object, the two error forms are the rejections, and `outOfFuel` marks a
redirect chain longer than the model's fuel (the source recursion is
unbounded there). -/
inductive DownloadOutcome where
  | ok (relPath : String) (skipped : Bool)
  | downloadError (statusCode : Nat)
  | transportError
  | outOfFuel
deriving DecidableEq

/-- `downloadImage(imageUrl, slug)` as a state transformer on the
filesystem. `net` gives the reply for each requested locator; `fuel`
bounds the recursion through redirects. Opening the write stream
(`fs.createWriteStream(filepath)`) creates an empty file at the target
path before the response is inspected; only the transport-error handler
unlinks it. -/
def downloadImage (md5hex : String → String) (net : String → HttpReply) (slug : String) :
    Nat → Fs → String → DownloadOutcome × Fs
  | 0, fs, _ => (.outOfFuel, fs)
  | fuel + 1, fs, imageUrl =>
    let filename := localFilename md5hex imageUrl slug
    let filepath := imagesDirPath filename
    let relativePath := "images/" ++ filename
    if fsExistsSync fs filepath then
      (.ok relativePath true, fs)
    else
      let fs1 := fsWrite fs filepath ""
      match net imageUrl with
      | .transportError => (.transportError, fsUnlink fs1 filepath)
      | .response statusCode location body =>
        if statusCode = 301 ∨ statusCode = 302 then
          downloadImage md5hex net slug fuel fs1 location
        else if statusCode ≠ 200 then
          (.downloadError statusCode, fs1)
        else
          (.ok relativePath false, fsWrite fs1 filepath body)

/-! ## Rich text -/

/-- The annotation set of a plain text span. -/
structure Annotations where
  bold : Bool
  italic : Bool
  strikethrough : Bool
  underline : Bool
  code : Bool
  color : String
deriving DecidableEq

/-- The `mention` payloads the renderer distinguishes; `other` is the
default mention handling. -/
inductive MentionKind where
  | date (start : String) (stop : Option String)
  | user
  | page
  | database
  | other
deriving DecidableEq

/-- One rich-text span: plain text (with optional annotation set and link
target — `none`/empty model JS falsy values), an inline equation, or a
mention. -/
inductive RichText where
  | text (plainText : String) (annotations : Option Annotations) (href : Option String)
  | equation (expression : String)
  | mention (kind : MentionKind) (plainText : String)
deriving DecidableEq

/-- `t.plain_text`; the API sets the plain text of an inline equation to
its expression. -/
def plainTextOf : RichText → String
  | .text pt _ _ => pt
  | .equation expr => expr
  | .mention _ pt => pt

/-- The per-span body of `richTextToHtml` (the arrow function mapped over
`richTextArray`). `fmtDate` stands for the external
`Date#toLocaleDateString` long-format call. -/
def renderRichTextSpan (fmtDate : String → String) : RichText → String
  | .equation expr =>
    "<span class=\"inline-equation\" data-equation=\"" ++ escapeQuotes expr
      ++ "\">\\(" ++ expr ++ "\\)</span>"
  | .mention kind pt =>
    match kind with
    | .date start stop =>
      let startDate := fmtDate start
      let content :=
        match stop with
        | some e => startDate ++ " → " ++ fmtDate e
        | none => startDate
      "<span class=\"mention mention-date\">" ++ content ++ "</span>"
    | .user => "<span class=\"mention mention-user\">@" ++ pt ++ "</span>"
    | .page => "<span class=\"mention mention-page\">" ++ pt ++ "</span>"
    | .database => "<span class=\"mention mention-page\">" ++ pt ++ "</span>"
    | .other => pt
  | .text pt ann href =>
    let content := escapeThenBr pt
    let content :=
      match ann with
      | some a =>
        let c := content
        let c := if a.bold then wrapTag "strong" c else c
        let c := if a.italic then wrapTag "em" c else c
        let c := if a.strikethrough then wrapTag "del" c else c
        let c := if a.underline then wrapTag "u" c else c
        let c := if a.code then wrapTag "code" c else c
        if a.color ≠ "" ∧ a.color ≠ "default" then
          "<span class=\"text-" ++ a.color ++ "\">" ++ c ++ "</span>"
        else c
      | none => content
    match href with
    | some u => if u ≠ "" then "<a href=\"" ++ u ++ "\">" ++ content ++ "</a>" else content
    | none => content

/-- `richTextToHtml(richTextArray)`; `none` models a null or undefined
argument. -/
def richTextToHtml (fmtDate : String → String) (richTextArr : Option (List RichText)) : String :=
  match richTextArr with
  | none => ""
  | some l => if l.length = 0 then "" else String.join (l.map (renderRichTextSpan fmtDate))

/-! ## Blocks -/

/-- An image block's source locator: the `external`/`file` split. -/
inductive ImageSource where
  | external (url : String)
  | file (url : String)
deriving DecidableEq

/-- Content blocks, covering the block kinds the specification's claims
exercise plus representative container kinds. Container variants carry
their externally fetched children inline together with the
`has_children` flag; `unsupported` is the switch's default case (the
source logs it and renders nothing), which a top-level `table_row` also
reaches. -/
inductive Block where
  | paragraph (richText : List RichText)
  | heading1 (richText : List RichText)
  | heading2 (richText : List RichText)
  | heading3 (richText : List RichText)
  | bulleted (richText : List RichText) (hasChildren : Bool) (children : List Block)
  | numbered (richText : List RichText) (hasChildren : Bool) (children : List Block)
  | quote (richText : List RichText) (hasChildren : Bool) (children : List Block)
  | codeBlock (language : String) (richText : List RichText) (caption : List RichText)
  | divider
  | image (source : ImageSource) (caption : List RichText)
  | toggle (richText : List RichText) (hasChildren : Bool) (children : List Block)
  | tableBlock (hasColumnHeader : Bool) (hasRowHeader : Bool) (hasChildren : Bool)
      (children : List Block)
  | tableRow (cells : List (List RichText))
  | unsupported (kind : String)

/-- `block.type === 'bulleted_list_item'`. -/
def isBulleted : Block → Bool
  | .bulleted _ _ _ => true
  | _ => false

/-- `block.type === 'numbered_list_item'`. -/
def isNumbered : Block → Bool
  | .numbered _ _ _ => true
  | _ => false

/-- The payload shared by the two list-item kinds: rich text,
`has_children`, children. -/
def listItemPayload : Block → List RichText × Bool × List Block
  | .bulleted rt hc ch => (rt, hc, ch)
  | .numbered rt hc ch => (rt, hc, ch)
  | _ => ([], false, [])

/-- The separator of `htmlParts.join('\n\n                    ')`. -/
def partsSep : String := "\n\n                    "

/-- `htmlParts.join(partsSep)`. -/
def joinParts (htmlParts : List String) : String :=
  String.intercalate partsSep htmlParts

/-- `if (html) htmlParts.push(html)`: empty fragments are dropped. -/
def pushPart (html : String) (htmlParts : List String) : List String :=
  if html = "" then htmlParts else html :: htmlParts

/-- Leading half of `replace(/^(<br>)+|(<br>)+$/g, '')`. -/
def dropLeadingBrs : List Char → List Char
  | '<' :: 'b' :: 'r' :: '>' :: rest => dropLeadingBrs rest
  | l => l

/-- Trailing half of the same regex, on the reversed character list. -/
def dropLeadingBrsRev : List Char → List Char
  | '>' :: 'r' :: 'b' :: '<' :: rest => dropLeadingBrsRev rest
  | l => l

/-- `text.replace(/^(<br>)+|(<br>)+$/g, '')`. -/
def trimEdgeBrs (s : String) : String :=
  String.mk ((dropLeadingBrsRev (dropLeadingBrs s.toList).reverse).reverse)

/-- `block.image.type === 'external' ? block.image.external.url :
block.image.file.url`. -/
def imageSourceUrl : ImageSource → String
  | .external url => url
  | .file url => url

/-- The `<figure>` markup of an image block. -/
def imageFigure (src captionHtml : String) : String :=
  "<figure><img src=\"" ++ src ++ "\" alt=\"" ++ captionHtml
    ++ "\" loading=\"lazy\"><figcaption>" ++ captionHtml ++ "</figcaption></figure>"

/-- `isHeaderRow || isHeaderCell ? 'th' : 'td'` for the cell at
`cellIndex` of a row. -/
def cellTag (isHeaderRow hasRowHeader : Bool) (cellIndex : Nat) : String :=
  if isHeaderRow || (hasRowHeader && cellIndex == 0) then "th" else "td"

/-- The inner `forEach` over one row's cells. -/
def tableCellsHtml (fmtDate : String → String) (isHeaderRow hasRowHeader : Bool) :
    Nat → List (List RichText) → String
  | _, [] => ""
  | cellIndex, cell :: rest =>
    let tag := cellTag isHeaderRow hasRowHeader cellIndex
    let cellContent := String.join (cell.map (fun rt => richTextToHtml fmtDate (some [rt])))
    "<" ++ tag ++ ">" ++ cellContent ++ "</" ++ tag ++ ">"
      ++ tableCellsHtml fmtDate isHeaderRow hasRowHeader (cellIndex + 1) rest

/-- The outer `forEach` over a table's fetched rows; a child that is not a
`table_row` contributes nothing but still advances the row index. -/
def tableRowsHtml (fmtDate : String → String) (hasColumnHeader hasRowHeader : Bool) :
    Nat → List Block → String
  | _, [] => ""
  | rowIndex, row :: rest =>
    let rowHtml :=
      match row with
      | .tableRow cells =>
        let isHeaderRow := hasColumnHeader && rowIndex == 0
        "<tr>" ++ tableCellsHtml fmtDate isHeaderRow hasRowHeader 0 cells ++ "</tr>"
      | _ => ""
    rowHtml ++ tableRowsHtml fmtDate hasColumnHeader hasRowHeader (rowIndex + 1) rest

/-- The renderer's external collaborators: the md5 hex digest, the
network, the redirect fuel of the resolver and the date formatter. -/
structure RenderEnv where
  md5hex : String → String
  net : String → HttpReply
  fuel : Nat
  fmtDate : String → String

/-- Auxiliary size bound for the termination of the renderer. -/
theorem sizeOf_takeWhile_le {α : Type} [SizeOf α] (p : α → Bool) (l : List α) :
    sizeOf (l.takeWhile p) ≤ sizeOf l := by
  induction l with
  | nil => simp [List.takeWhile]
  | cons a rest ih =>
    rw [List.takeWhile_cons]
    split
    · simp only [List.cons.sizeOf_spec]
      omega
    · simp only [List.cons.sizeOf_spec, List.nil.sizeOf_spec]
      have : 0 ≤ sizeOf a := Nat.zero_le _
      omega

/-- Auxiliary size bound for the termination of the renderer. -/
theorem sizeOf_dropWhile_le {α : Type} [SizeOf α] (p : α → Bool) (l : List α) :
    sizeOf (l.dropWhile p) ≤ sizeOf l := by
  induction l with
  | nil => simp [List.dropWhile]
  | cons a rest ih =>
    rw [List.dropWhile_cons]
    split
    · simp only [List.cons.sizeOf_spec]
      omega
    · omega

/-- The children returned by `listItemPayload` are no larger than the
block itself. -/
theorem sizeOf_listItemPayload_le (b : Block) : sizeOf (listItemPayload b).2.2 ≤ sizeOf b := by
  cases b <;> simp [listItemPayload] <;> omega

mutual

/-- The iteration of `blocksToHtml(blocks, slug)`: the list of pushed
`htmlParts`, plus the filesystem after the image downloads performed on
the way. Consecutive sibling list items are collected into one run,
rendered as one wrapped list, and the iteration resumes after the run. -/
def blocksToHtmlParts (env : RenderEnv) (slug : String) :
    List Block → Fs → List String × Fs
  | [], fs => ([], fs)
  | b :: rest, fs =>
    if isBulleted b then
      let runTail := rest.takeWhile isBulleted
      let afterRun := rest.dropWhile isBulleted
      let (listItems, fs1) := renderListItems env slug (b :: runTail) fs
      let html := "<ul>\n" ++ String.intercalate "\n" listItems ++ "\n</ul>"
      let (htmlParts, fs2) := blocksToHtmlParts env slug afterRun fs1
      (pushPart html htmlParts, fs2)
    else if isNumbered b then
      let runTail := rest.takeWhile isNumbered
      let afterRun := rest.dropWhile isNumbered
      let (listItems, fs1) := renderListItems env slug (b :: runTail) fs
      let html := "<ol>\n" ++ String.intercalate "\n" listItems ++ "\n</ol>"
      let (htmlParts, fs2) := blocksToHtmlParts env slug afterRun fs1
      (pushPart html htmlParts, fs2)
    else
      let (html, fs1) := blockHtml env slug b fs
      let (htmlParts, fs2) := blocksToHtmlParts env slug rest fs1
      (pushPart html htmlParts, fs2)
termination_by bs _ => 2 * sizeOf bs + 1
decreasing_by
  all_goals simp_wf
  all_goals
    first
      | omega
      | (have h1 := sizeOf_takeWhile_le isBulleted rest; omega)
      | (have h2 := sizeOf_dropWhile_le isBulleted rest; omega)
      | (have h3 := sizeOf_takeWhile_le isNumbered rest; omega)
      | (have h4 := sizeOf_dropWhile_le isNumbered rest; omega)

/-- The item loop shared by the two list cases of the switch: one `<li>`
per block of the run, with fetched children rendered inside the item. -/
def renderListItems (env : RenderEnv) (slug : String) :
    List Block → Fs → List String × Fs
  | [], fs => ([], fs)
  | b :: rest, fs =>
    let payload := listItemPayload b
    let itemText := richTextToHtml env.fmtDate (some payload.1)
    let (childrenPart, fs1) :=
      if payload.2.1 then
        let (childParts, fs') := blocksToHtmlParts env slug payload.2.2 fs
        ("\n" ++ joinParts childParts, fs')
      else ("", fs)
    let itemHtml := "<li>" ++ itemText ++ childrenPart ++ "</li>"
    let (items, fs2) := renderListItems env slug rest fs1
    (itemHtml :: items, fs2)
termination_by bs _ => 2 * sizeOf bs
decreasing_by
  all_goals simp_wf
  all_goals
    first
      | omega
      | (have h := sizeOf_listItemPayload_le b; omega)

/-- The switch body of `blocksToHtml` for a single non-list block. -/
def blockHtml (env : RenderEnv) (slug : String) : Block → Fs → String × Fs
  | .paragraph rt, fs =>
    let text := trimEdgeBrs (richTextToHtml env.fmtDate (some rt))
    (if text = "" then "" else "<p>" ++ text ++ "</p>", fs)
  | .heading1 rt, fs => (wrapTag "h1" (richTextToHtml env.fmtDate (some rt)), fs)
  | .heading2 rt, fs => (wrapTag "h2" (richTextToHtml env.fmtDate (some rt)), fs)
  | .heading3 rt, fs => (wrapTag "h3" (richTextToHtml env.fmtDate (some rt)), fs)
  | .quote rt hasChildren children, fs =>
    let quoteHtml := richTextToHtml env.fmtDate (some rt)
    let (quoteHtml, fs1) :=
      if hasChildren then
        let (childParts, fs') := blocksToHtmlParts env slug children fs
        (quoteHtml ++ "\n" ++ joinParts childParts, fs')
      else (quoteHtml, fs)
    (wrapTag "blockquote" quoteHtml, fs1)
  | .codeBlock language rt caption, fs =>
    let lang := if language = "" then "plaintext" else language
    let codeText := String.join (rt.map plainTextOf)
    let escapedCode := escapeHtml codeText
    let codeCaption :=
      if caption.length ≠ 0 then
        "<figcaption class=\"code-caption\">" ++ richTextToHtml env.fmtDate (some caption)
          ++ "</figcaption>"
      else ""
    ("<figure class=\"code-block\"><pre><code class=\"language-" ++ lang ++ "\">"
      ++ escapedCode ++ "</code></pre>" ++ codeCaption ++ "</figure>", fs)
  | .divider, fs => ("<hr>", fs)
  | .image source caption, fs =>
    let imageUrl := imageSourceUrl source
    let captionHtml :=
      if caption.length ≠ 0 then richTextToHtml env.fmtDate (some caption) else ""
    let (result, fs1) := downloadImage env.md5hex env.net slug env.fuel fs imageUrl
    let html :=
      match result with
      | .ok localPath _ => imageFigure localPath captionHtml
      | _ => imageFigure imageUrl captionHtml
    (html, fs1)
  | .toggle rt hasChildren children, fs =>
    let toggleText := richTextToHtml env.fmtDate (some rt)
    let (toggleContent, fs1) :=
      if hasChildren then
        let (childParts, fs') := blocksToHtmlParts env slug children fs
        (joinParts childParts, fs')
      else ("", fs)
    ("<details class=\"toggle\"><summary>" ++ toggleText
      ++ "</summary><div class=\"toggle-content\">" ++ toggleContent ++ "</div></details>", fs1)
  | .tableBlock hasColumnHeader hasRowHeader hasChildren children, fs =>
    (if hasChildren then
      "<table class=\"notion-table\">"
        ++ tableRowsHtml env.fmtDate hasColumnHeader hasRowHeader 0 children ++ "</table>"
    else "", fs)
  | .tableRow _, fs => ("", fs)
  | .unsupported _, fs => ("", fs)
  | .bulleted _ _ _, fs => ("", fs)
  | .numbered _ _ _, fs => ("", fs)
  -- the two list-item cases are unreachable: the caller groups them into
  -- runs before dispatching here
termination_by b _ => 2 * sizeOf b
decreasing_by
  all_goals simp_wf
  all_goals omega

end

/-- `blocksToHtml(blocks, slug)`: the joined fragment and the filesystem
after the render. -/
def blocksToHtml (env : RenderEnv) (blocks : List Block) (slug : String) (fs : Fs) :
    String × Fs :=
  let (htmlParts, fs1) := blocksToHtmlParts env slug blocks fs
  (joinParts htmlParts, fs1)

/-! ## Concrete stand-ins for witnesses and counterexamples -/

/-- Concrete md5 stand-in for closed statements. -/
def cexMd5 : String → String := fun _ => "0123456789abcdef"

/-- A network whose every reply is a 404 status. -/
def cexNet404 : String → HttpReply := fun _ => .response 404 "" ""

/-- A network whose every request fails at the transport level. -/
def cexNetTransport : String → HttpReply := fun _ => .transportError

/-- A concrete render environment whose image fetches all return 404. -/
def cexEnv404 : RenderEnv := ⟨cexMd5, cexNet404, 1, fun s => s⟩

/-- Modelled from the spec's table wording: a cell is a header cell when
the header-row flag is set and the cell lies in the first row, or when
the header-column flag is set and the cell is the first of its row;
either condition alone suffices. -/
def specCellTag (headerRowFlag headerColumnFlag : Bool) (rowIndex cellIndex : Nat) : String :=
  if (headerRowFlag = true ∧ rowIndex = 0) ∨ (headerColumnFlag = true ∧ cellIndex = 0)
  then "th" else "td"

/-- Modelled from the spec's wrapping pipeline (with the amended
innermost-to-outermost orientation): the tags of the active annotations
in the listed order bold, italic, strikethrough, underline, inline-code. -/
def specActiveWrapTags (a : Annotations) : List String :=
  (if a.bold then ["strong"] else []) ++ (if a.italic then ["em"] else [])
    ++ (if a.strikethrough then ["del"] else []) ++ (if a.underline then ["u"] else [])
    ++ (if a.code then ["code"] else [])

/-- Modelled from the spec's wrapping pipeline (with the amended
innermost-to-outermost orientation): HTML-escape, convert newlines, wrap
successively for each active annotation in the listed order (each later
wrap outside the earlier ones), then the color span, then the link. -/
def specRenderTextSpan (pt : String) (ann : Option Annotations) (href : Option String) :
    String :=
  let c := escapeThenBr pt
  let c :=
    match ann with
    | some a =>
      let c := (specActiveWrapTags a).foldl (fun acc tag => wrapTag tag acc) c
      if a.color ≠ "" ∧ a.color ≠ "default" then
        "<span class=\"text-" ++ a.color ++ "\">" ++ c ++ "</span>"
      else c
    | none => c
  match href with
  | some u => if u ≠ "" then "<a href=\"" ++ u ++ "\">" ++ c ++ "</a>" else c
  | none => c

/-- Spec-side predicate for the slug shape: no two adjacent hyphens. -/
def noConsecHyphens : List Char → Bool
  | c1 :: c2 :: rest => !((c1 == '-') && (c2 == '-')) && noConsecHyphens (c2 :: rest)
  | _ => true

/-! ## General lemmas -/

theorem takeWhile_append_of_all {α : Type} {p : α → Bool} {l1 l2 : List α}
    (h : ∀ x ∈ l1, p x = true) :
    (l1 ++ l2).takeWhile p = l1 ++ l2.takeWhile p := by
  induction l1 with
  | nil => simp
  | cons a t ih =>
    simp [List.takeWhile_cons, h a (by simp), ih (fun x hx => h x (by simp [hx]))]

theorem dropWhile_append_of_all {α : Type} {p : α → Bool} {l1 l2 : List α}
    (h : ∀ x ∈ l1, p x = true) :
    (l1 ++ l2).dropWhile p = l2.dropWhile p := by
  induction l1 with
  | nil => simp
  | cons a t ih =>
    simp [List.dropWhile_cons, h a (by simp), ih (fun x hx => h x (by simp [hx]))]

theorem takeWhile_eq_nil_of_head {α : Type} {p : α → Bool} {l : List α}
    (h : ∀ x ∈ l.head?, p x = false) :
    l.takeWhile p = [] := by
  cases l with
  | nil => simp
  | cons a t => simp [List.takeWhile_cons, h a (by simp)]

theorem dropWhile_eq_self_of_head {α : Type} {p : α → Bool} {l : List α}
    (h : ∀ x ∈ l.head?, p x = false) :
    l.dropWhile p = l := by
  cases l with
  | nil => simp
  | cons a t => simp [List.dropWhile_cons, h a (by simp)]

theorem fsExistsSync_fsWrite_self (fs : Fs) (p content : String) :
    fsExistsSync (fsWrite fs p content) p = true := by
  simp [fsExistsSync, fsWrite]

theorem fsExistsSync_fsUnlink_self (fs : Fs) (p : String) :
    fsExistsSync (fsUnlink fs p) p = false := by
  simp only [fsExistsSync, fsUnlink, List.any_eq_false]
  intro e he
  have := (List.mem_filter.mp he).2
  simpa using this

/-! ## Renderer step lemmas -/

theorem blocksToHtmlParts_nil (env : RenderEnv) (slug : String) (fs : Fs) :
    blocksToHtmlParts env slug [] fs = ([], fs) := by
  rw [blocksToHtmlParts]

theorem blocksToHtmlParts_cons_bulleted (env : RenderEnv) (slug : String)
    (b : Block) (rest : List Block) (fs : Fs) (hb : isBulleted b = true) :
    blocksToHtmlParts env slug (b :: rest) fs =
      (pushPart ("<ul>\n" ++ String.intercalate "\n"
          (renderListItems env slug (b :: rest.takeWhile isBulleted) fs).1 ++ "\n</ul>")
        (blocksToHtmlParts env slug (rest.dropWhile isBulleted)
          (renderListItems env slug (b :: rest.takeWhile isBulleted) fs).2).1,
       (blocksToHtmlParts env slug (rest.dropWhile isBulleted)
          (renderListItems env slug (b :: rest.takeWhile isBulleted) fs).2).2) := by
  rw [blocksToHtmlParts]
  simp [hb]

theorem blocksToHtmlParts_cons_numbered (env : RenderEnv) (slug : String)
    (b : Block) (rest : List Block) (fs : Fs) (hn : isNumbered b = true) :
    blocksToHtmlParts env slug (b :: rest) fs =
      (pushPart ("<ol>\n" ++ String.intercalate "\n"
          (renderListItems env slug (b :: rest.takeWhile isNumbered) fs).1 ++ "\n</ol>")
        (blocksToHtmlParts env slug (rest.dropWhile isNumbered)
          (renderListItems env slug (b :: rest.takeWhile isNumbered) fs).2).1,
       (blocksToHtmlParts env slug (rest.dropWhile isNumbered)
          (renderListItems env slug (b :: rest.takeWhile isNumbered) fs).2).2) := by
  have hb : isBulleted b = false := by
    cases b <;> first | rfl | (exact absurd hn (by simp [isNumbered]))
  rw [blocksToHtmlParts]
  simp [hb, hn]

theorem blocksToHtmlParts_cons_single (env : RenderEnv) (slug : String)
    (b : Block) (rest : List Block) (fs : Fs)
    (hb : isBulleted b = false) (hn : isNumbered b = false) :
    blocksToHtmlParts env slug (b :: rest) fs =
      (pushPart (blockHtml env slug b fs).1
        (blocksToHtmlParts env slug rest (blockHtml env slug b fs).2).1,
       (blocksToHtmlParts env slug rest (blockHtml env slug b fs).2).2) := by
  rw [blocksToHtmlParts]
  simp [hb, hn]

theorem renderListItems_nil (env : RenderEnv) (slug : String) (fs : Fs) :
    renderListItems env slug [] fs = ([], fs) := by
  rw [renderListItems]

theorem renderListItems_cons (env : RenderEnv) (slug : String)
    (b : Block) (rest : List Block) (fs : Fs) :
    renderListItems env slug (b :: rest) fs =
      (let payload := listItemPayload b
       let itemText := richTextToHtml env.fmtDate (some payload.1)
       let cp :=
         if payload.2.1 then
           let r := blocksToHtmlParts env slug payload.2.2 fs
           ("\n" ++ joinParts r.1, r.2)
         else ("", fs)
       let itemHtml := "<li>" ++ itemText ++ cp.1 ++ "</li>"
       let r2 := renderListItems env slug rest cp.2
       (itemHtml :: r2.1, r2.2)) := by
  rw [renderListItems]

/-! ## Claims -/

/-- C1: the resolver's local filename `{slug}-{hash}{extension}` depends
on a remote locator only through its query-stripped path component, so
two locators with equal path components — in particular a fixed path
carrying two different query-string signatures — give the same local
filename for the same slug. -/
theorem c1_stable_filename (md5hex : String → String) (slug : String) :
    (∀ u1 u2, stripQuery u1 = stripQuery u2 →
      localFilename md5hex u1 slug = localFilename md5hex u2 slug) ∧
    (∀ base q1 q2 : String, base.toList.all (fun c => c != '?') = true →
      localFilename md5hex (base ++ "?" ++ q1) slug
        = localFilename md5hex (base ++ "?" ++ q2) slug) := by
  have key : ∀ u, localFilename md5hex u slug
      = slug ++ "-" ++ (md5hex (stripQuery u)).take 12 ++ extOf (stripQuery u) :=
    fun _ => rfl
  constructor
  · intro u1 u2 h
    rw [key, key, h]
  · intro base q1 q2 hb
    have hq : ∀ q : String, stripQuery (base ++ "?" ++ q) = base := by
      intro q
      have hlist : (base ++ "?" ++ q).toList = base.toList ++ '?' :: q.toList := by
        show (base ++ "?" ++ q).data = base.data ++ '?' :: q.data
        simp [String.data_append]
      unfold stripQuery
      rw [hlist, takeWhile_append_of_all (by simpa using hb)]
      simp only [List.takeWhile_cons]
      norm_num
    rw [key, key, hq, hq]

/-- C1 witness: two signed variants of one concrete path resolve to the
same filename. -/
theorem c1_stable_filename_witness :
    stripQuery "https://x/a.png?sig=1" = stripQuery "https://x/a.png?sig=2" ∧
    localFilename cexMd5 "https://x/a.png?sig=1" "post"
      = localFilename cexMd5 "https://x/a.png?sig=2" "post" :=
  ⟨by decide, (c1_stable_filename cexMd5 "post").1 _ _ (by decide)⟩

/-- C2 counterexample: on a 404 reply the resolver rejects with the
status code but the empty file created by opening the write stream is
left at the computed local path. -/
theorem c2_counterexample_empty_file_remains :
    (downloadImage cexMd5 cexNet404 "post" 1 [] "https://x/a.png").1
      = .downloadError 404 ∧
    fsExistsSync (downloadImage cexMd5 cexNet404 "post" 1 [] "https://x/a.png").2
      "thoughts/images/post-0123456789ab.png" = true := by
  decide

/-- C2 (amended): when the first fetch of a locator fails at the
transport level, the partially written file at the computed path is
removed before the failure propagates; when it fails with a non-success,
non-redirect status, the `DownloadError` carries the status code but the
empty file created by opening the write stream remains at the computed
path. -/
theorem c2_failure_file_state (md5hex : String → String) (net : String → HttpReply)
    (fuel : Nat) (fs : Fs) (imageUrl slug : String)
    (hmiss : fsExistsSync fs (imagesDirPath (localFilename md5hex imageUrl slug)) = false) :
    (net imageUrl = .transportError →
      downloadImage md5hex net slug (fuel + 1) fs imageUrl =
        (.transportError,
         fsUnlink (fsWrite fs (imagesDirPath (localFilename md5hex imageUrl slug)) "")
           (imagesDirPath (localFilename md5hex imageUrl slug))) ∧
      fsExistsSync
        (fsUnlink (fsWrite fs (imagesDirPath (localFilename md5hex imageUrl slug)) "")
          (imagesDirPath (localFilename md5hex imageUrl slug)))
        (imagesDirPath (localFilename md5hex imageUrl slug)) = false) ∧
    (∀ statusCode location body,
      net imageUrl = .response statusCode location body →
      statusCode ≠ 200 → statusCode ≠ 301 → statusCode ≠ 302 →
      downloadImage md5hex net slug (fuel + 1) fs imageUrl =
        (.downloadError statusCode,
         fsWrite fs (imagesDirPath (localFilename md5hex imageUrl slug)) "") ∧
      fsExistsSync (fsWrite fs (imagesDirPath (localFilename md5hex imageUrl slug)) "")
        (imagesDirPath (localFilename md5hex imageUrl slug)) = true) := by
  constructor
  · intro hnet
    have heq : downloadImage md5hex net slug (fuel + 1) fs imageUrl =
        (.transportError,
         fsUnlink (fsWrite fs (imagesDirPath (localFilename md5hex imageUrl slug)) "")
           (imagesDirPath (localFilename md5hex imageUrl slug))) := by
      rw [downloadImage]
      simp only [hmiss, Bool.false_eq_true, if_false, hnet]
    exact ⟨heq, fsExistsSync_fsUnlink_self _ _⟩
  · intro statusCode location body hnet h200 h301 h302
    have heq : downloadImage md5hex net slug (fuel + 1) fs imageUrl =
        (.downloadError statusCode,
         fsWrite fs (imagesDirPath (localFilename md5hex imageUrl slug)) "") := by
      rw [downloadImage]
      simp only [hmiss, Bool.false_eq_true, if_false, hnet, h301, h302, or_self,
        ne_eq, h200, not_false_eq_true, if_true]
    exact ⟨heq, fsExistsSync_fsWrite_self _ _ _⟩

/-- C2 witness: the transport-error half at a concrete locator, slug and
empty filesystem. -/
theorem c2_failure_file_state_witness :
    fsExistsSync [] (imagesDirPath (localFilename cexMd5 "https://x/a.png" "post")) = false ∧
    (cexNetTransport "https://x/a.png" = .transportError →
      downloadImage cexMd5 cexNetTransport "post" 1 [] "https://x/a.png" =
        (.transportError,
         fsUnlink (fsWrite [] (imagesDirPath (localFilename cexMd5 "https://x/a.png" "post")) "")
           (imagesDirPath (localFilename cexMd5 "https://x/a.png" "post"))) ∧
      fsExistsSync
        (fsUnlink (fsWrite [] (imagesDirPath (localFilename cexMd5 "https://x/a.png" "post")) "")
          (imagesDirPath (localFilename cexMd5 "https://x/a.png" "post")))
        (imagesDirPath (localFilename cexMd5 "https://x/a.png" "post")) = false) :=
  ⟨by decide, ((c2_failure_file_state cexMd5 cexNetTransport 0 [] "https://x/a.png" "post"
      (by decide)).1)⟩

/-- C7: when a file already exists at the computed local path the
resolver resolves immediately with the relative path and a `skipped`
outcome; the result is the same for every network and the filesystem is
unchanged (no fetch, no write). -/
theorem c7_cache_hit (md5hex : String → String) (net : String → HttpReply)
    (fuel : Nat) (fs : Fs) (imageUrl slug : String)
    (h : fsExistsSync fs (imagesDirPath (localFilename md5hex imageUrl slug)) = true) :
    downloadImage md5hex net slug (fuel + 1) fs imageUrl =
      (.ok ("images/" ++ localFilename md5hex imageUrl slug) true, fs) := by
  rw [downloadImage]
  simp [h]

/-- C7 witness: a concrete pre-populated cache entry is returned as
skipped, unchanged. -/
theorem c7_cache_hit_witness :
    fsExistsSync [("thoughts/images/post-0123456789ab.png", "x")]
      (imagesDirPath (localFilename cexMd5 "https://x/a.png" "post")) = true ∧
    downloadImage cexMd5 cexNetTransport "post" 1
        [("thoughts/images/post-0123456789ab.png", "x")] "https://x/a.png" =
      (.ok ("images/" ++ localFilename cexMd5 "https://x/a.png" "post") true,
       [("thoughts/images/post-0123456789ab.png", "x")]) :=
  ⟨by decide, c7_cache_hit cexMd5 cexNetTransport 0 _ _ _ (by decide)⟩

/-- `s = ""` is the same as having no characters. -/
theorem eq_empty_iff_data_nil (s : String) : s = "" ↔ s.data = [] :=
  ⟨fun h => h ▸ rfl, fun h => String.ext (h.trans rfl)⟩

/-- A string with a nonempty left part is nonempty. -/
theorem string_append_left_ne_empty (a b : String) (ha : a ≠ "") : a ++ b ≠ "" := by
  intro h
  rw [eq_empty_iff_data_nil, String.data_append] at h
  exact ha (eq_empty_iff_data_nil a |>.mpr (List.append_eq_nil.mp h).1)

/-- `pushPart` keeps a nonempty fragment. -/
theorem pushPart_of_ne (html : String) (htmlParts : List String) (h : html ≠ "") :
    pushPart html htmlParts = html :: htmlParts := if_neg h

/-- C9: a null/undefined rich-text argument and an empty span sequence
both render to the empty string, and a paragraph block whose text is
empty contributes no fragment to the part list. -/
theorem c9_empty_rich_text :
    (∀ fmtDate : String → String, richTextToHtml fmtDate none = "") ∧
    (∀ fmtDate : String → String, richTextToHtml fmtDate (some []) = "") ∧
    (∀ (env : RenderEnv) (slug : String) (rest : List Block) (fs : Fs),
      blocksToHtmlParts env slug (.paragraph [] :: rest) fs
        = blocksToHtmlParts env slug rest fs) := by
  refine ⟨fun _ => rfl, fun _ => rfl, fun env slug rest fs => ?_⟩
  rw [blocksToHtmlParts_cons_single env slug (.paragraph []) rest fs rfl rfl]
  have hpar : blockHtml env slug (.paragraph []) fs = ("", fs) := by
    rw [blockHtml]
    rfl
  rw [hpar]
  simp [pushPart]

/-- Replacing `c` by a string not containing `c` eliminates `c`. -/
theorem not_mem_replaceCharL_self (c : Char) (r l : List Char) (hr : c ∉ r) :
    c ∉ replaceCharL c r l := by
  induction l with
  | nil => simp [replaceCharL]
  | cons ch rest ih =>
    by_cases hch : ch = c
    · simp only [replaceCharL, if_pos hch]
      intro hmem
      rcases List.mem_append.mp hmem with h | h
      · exact hr h
      · exact ih h
    · simp only [replaceCharL, if_neg hch]
      intro hmem
      rcases List.mem_cons.mp hmem with h | h
      · exact hch h.symm
      · exact ih h

/-- Character replacement introduces no character that is absent from
both the input and the replacement string. -/
theorem not_mem_replaceCharL_of (d c : Char) (r l : List Char)
    (hd : d ∉ r) (hl : d ∉ l) : d ∉ replaceCharL c r l := by
  induction l with
  | nil => simp [replaceCharL]
  | cons ch rest ih =>
    have hne : d ≠ ch := fun h => hl (h ▸ List.mem_cons_self ch rest)
    have hrest : d ∉ rest := fun h => hl (List.mem_cons_of_mem ch h)
    by_cases hch : ch = c
    · simp only [replaceCharL, if_pos hch]
      intro hmem
      rcases List.mem_append.mp hmem with h | h
      · exact hd h
      · exact ih hrest h
    · simp only [replaceCharL, if_neg hch]
      intro hmem
      rcases List.mem_cons.mp hmem with h | h
      · exact hne h
      · exact ih hrest h

/-- The HTML escaping leaves no raw angle bracket in its output. -/
theorem escapeHtml_no_angle_brackets (s : String) :
    (escapeHtml s).toList.all (fun c => !(c == '<') && !(c == '>')) = true := by
  rw [List.all_eq_true]
  intro c hc
  have hc' : c ∈ escAmpLtGtL s.toList := hc
  have hlt : '<' ∉ escAmpLtGtL s.toList := by
    unfold escAmpLtGtL
    exact not_mem_replaceCharL_of '<' '>' _ _ (by decide)
      (not_mem_replaceCharL_self '<' _ _ (by decide))
  have hgt : '>' ∉ escAmpLtGtL s.toList := by
    unfold escAmpLtGtL
    exact not_mem_replaceCharL_self '>' _ _ (by decide)
  have h1 : c ≠ '<' := fun h => hlt (h ▸ hc')
  have h2 : c ≠ '>' := fun h => hgt (h ▸ hc')
  simp [h1, h2]

/-- C6: a code block renders its literal concatenated span text,
HTML-escaped, with the language class token defaulting to `plaintext`;
the render is unchanged when the spans' annotations are stripped (no
rich-text processing); the escaping of `<script>&</script>` is exactly
its entity form, and escaped code never contains a raw angle bracket. -/
theorem c6_code_block_literal (env : RenderEnv) (slug : String)
    (language : String) (rt caption : List RichText) (rest : List Block) (fs : Fs) :
    (blocksToHtmlParts env slug (.codeBlock language rt caption :: rest) fs =
      (("<figure class=\"code-block\"><pre><code class=\"language-"
          ++ (if language = "" then "plaintext" else language) ++ "\">"
          ++ escapeHtml (String.join (rt.map plainTextOf)) ++ "</code></pre>"
          ++ (if caption.length ≠ 0 then
                "<figcaption class=\"code-caption\">"
                  ++ richTextToHtml env.fmtDate (some caption) ++ "</figcaption>"
              else "")
          ++ "</figure>") ::
        (blocksToHtmlParts env slug rest fs).1,
       (blocksToHtmlParts env slug rest fs).2)) ∧
    (blocksToHtmlParts env slug (.codeBlock language rt caption :: rest) fs =
      blocksToHtmlParts env slug
        (.codeBlock language (rt.map (fun t => .text (plainTextOf t) none none)) caption
          :: rest) fs) ∧
    escapeHtml "<script>&</script>" = "&lt;script&gt;&amp;&lt;/script&gt;" ∧
    ∀ s : String, (escapeHtml s).toList.all (fun c => !(c == '<') && !(c == '>')) = true := by
  have hstep : ∀ rt' : List RichText, rt'.map plainTextOf = rt.map plainTextOf →
      blocksToHtmlParts env slug (.codeBlock language rt' caption :: rest) fs =
      (("<figure class=\"code-block\"><pre><code class=\"language-"
          ++ (if language = "" then "plaintext" else language) ++ "\">"
          ++ escapeHtml (String.join (rt.map plainTextOf)) ++ "</code></pre>"
          ++ (if caption.length ≠ 0 then
                "<figcaption class=\"code-caption\">"
                  ++ richTextToHtml env.fmtDate (some caption) ++ "</figcaption>"
              else "")
          ++ "</figure>") ::
        (blocksToHtmlParts env slug rest fs).1,
       (blocksToHtmlParts env slug rest fs).2) := by
    intro rt' hrt
    rw [blocksToHtmlParts_cons_single env slug (.codeBlock language rt' caption) rest fs rfl rfl]
    have hbh : blockHtml env slug (.codeBlock language rt' caption) fs =
        ("<figure class=\"code-block\"><pre><code class=\"language-"
          ++ (if language = "" then "plaintext" else language) ++ "\">"
          ++ escapeHtml (String.join (rt.map plainTextOf)) ++ "</code></pre>"
          ++ (if caption.length ≠ 0 then
                "<figcaption class=\"code-caption\">"
                  ++ richTextToHtml env.fmtDate (some caption) ++ "</figcaption>"
              else "")
          ++ "</figure>", fs) := by
      rw [blockHtml, hrt]
    rw [hbh]
    rw [pushPart_of_ne _ _ (by
      apply string_append_left_ne_empty
      apply string_append_left_ne_empty
      apply string_append_left_ne_empty
      apply string_append_left_ne_empty
      apply string_append_left_ne_empty
      apply string_append_left_ne_empty
      decide)]
  refine ⟨hstep rt rfl, ?_, by decide, escapeHtml_no_angle_brackets⟩
  rw [hstep rt rfl, hstep (rt.map (fun t => .text (plainTextOf t) none none))
    (by simp [plainTextOf])]

/-- C8: the tag the renderer picks for the cell at `(rowIndex, cellIndex)`
agrees with the spec's header-cell rule (`has_column_header` headers the
first row, `has_row_header` headers the first column, either alone
suffices); with both flags set the top-left cell is a `th`; and a table
block with fetched children emits exactly one table element built from
its rows. -/
theorem c8_table_header_cells :
    (∀ (hasColumnHeader hasRowHeader : Bool) (rowIndex cellIndex : Nat),
      cellTag (hasColumnHeader && rowIndex == 0) hasRowHeader cellIndex
        = specCellTag hasColumnHeader hasRowHeader rowIndex cellIndex) ∧
    cellTag (true && (0 == 0)) true 0 = "th" ∧
    (∀ (env : RenderEnv) (slug : String) (hasColumnHeader hasRowHeader : Bool)
        (rows rest : List Block) (fs : Fs),
      blocksToHtmlParts env slug (.tableBlock hasColumnHeader hasRowHeader true rows :: rest) fs =
        (("<table class=\"notion-table\">"
            ++ tableRowsHtml env.fmtDate hasColumnHeader hasRowHeader 0 rows ++ "</table>") ::
          (blocksToHtmlParts env slug rest fs).1,
         (blocksToHtmlParts env slug rest fs).2)) := by
  refine ⟨?_, by decide, ?_⟩
  · intro hasColumnHeader hasRowHeader rowIndex cellIndex
    cases hasColumnHeader <;> cases hasRowHeader <;> cases rowIndex <;> cases cellIndex <;>
      simp [cellTag, specCellTag]
  · intro env slug hasColumnHeader hasRowHeader rows rest fs
    rw [blocksToHtmlParts_cons_single env slug
      (.tableBlock hasColumnHeader hasRowHeader true rows) rest fs rfl rfl]
    have hbh : blockHtml env slug (.tableBlock hasColumnHeader hasRowHeader true rows) fs =
        ("<table class=\"notion-table\">"
          ++ tableRowsHtml env.fmtDate hasColumnHeader hasRowHeader 0 rows ++ "</table>", fs) := by
      rw [blockHtml]
      rfl
    rw [hbh]
    rw [pushPart_of_ne _ _ (by
      apply string_append_left_ne_empty
      apply string_append_left_ne_empty
      decide)]

/-- C5 counterexample: with bold, italic and inline-code active on text
`"x"`, the renderer nests bold innermost — not the claimed
outermost-to-innermost reading of the listed order, which would put bold
outermost. -/
theorem c5_nesting_counterexample :
    renderRichTextSpan (fun s => s)
        (.text "x" (some ⟨true, true, false, false, true, "default"⟩) none)
      = "<code><em><strong>x</strong></em></code>" ∧
    ("<code><em><strong>x</strong></em></code>" : String)
      ≠ "<strong><em><code>x</code></em></strong>" := by
  exact ⟨rfl, by decide⟩

/-- C5 (amended): for every plain-text span the rendered markup follows
the fixed pipeline — HTML-escape `&`, `<`, `>`, convert newlines to
breaks, wrap successively for each active annotation in the listed order
bold, italic, strikethrough, underline, inline-code with each later wrap
outside the earlier ones (so the listed order reads
innermost-to-outermost), then the color wrapper for a non-default color,
then finally the link wrapper — identically on every invocation. -/
theorem c5_annotation_pipeline (fmtDate : String → String) (pt : String)
    (ann : Option Annotations) (href : Option String) :
    renderRichTextSpan fmtDate (.text pt ann href) = specRenderTextSpan pt ann href := by
  cases ann with
  | none => rfl
  | some a =>
    rcases a with ⟨b, i, st, un, cd, col⟩
    cases b <;> cases i <;> cases st <;> cases un <;> cases cd <;> rfl

/-- The `<figure>` of an image block is never the empty fragment. -/
theorem imageFigure_ne_empty (src captionHtml : String) : imageFigure src captionHtml ≠ "" := by
  unfold imageFigure
  apply string_append_left_ne_empty
  apply string_append_left_ne_empty
  apply string_append_left_ne_empty
  apply string_append_left_ne_empty
  apply string_append_left_ne_empty
  apply string_append_left_ne_empty
  decide

/-- C3: a maximal run of same-kind list items at the head of the
sequence (all items of the run share the kind, the following block does
not) is emitted as exactly one wrapping list element around the joined
per-item markup, and iteration resumes after the whole run — for the
bulleted and the numbered kind; and on
`[bulleted A, bulleted B, paragraph C, bulleted D]` the renderer emits
exactly the three fragments `<ul>(A,B)</ul>`, `<p>C</p>`,
`<ul>(D)</ul>`, the paragraph between the two lists and in neither. -/
theorem c3_list_grouping :
    (∀ (env : RenderEnv) (slug : String) (run post : List Block) (fs : Fs),
      run ≠ [] →
      (∀ b ∈ run, isBulleted b = true) →
      (∀ b ∈ post.head?, isBulleted b = false) →
      blocksToHtmlParts env slug (run ++ post) fs =
        (("<ul>\n" ++ String.intercalate "\n" (renderListItems env slug run fs).1 ++ "\n</ul>") ::
          (blocksToHtmlParts env slug post (renderListItems env slug run fs).2).1,
         (blocksToHtmlParts env slug post (renderListItems env slug run fs).2).2)) ∧
    (∀ (env : RenderEnv) (slug : String) (run post : List Block) (fs : Fs),
      run ≠ [] →
      (∀ b ∈ run, isNumbered b = true) →
      (∀ b ∈ post.head?, isNumbered b = false) →
      blocksToHtmlParts env slug (run ++ post) fs =
        (("<ol>\n" ++ String.intercalate "\n" (renderListItems env slug run fs).1 ++ "\n</ol>") ::
          (blocksToHtmlParts env slug post (renderListItems env slug run fs).2).1,
         (blocksToHtmlParts env slug post (renderListItems env slug run fs).2).2)) ∧
    (∀ (env : RenderEnv) (slug : String) (fs : Fs),
      blocksToHtmlParts env slug
        [ .bulleted [.text "A" none none] false []
        , .bulleted [.text "B" none none] false []
        , .paragraph [.text "C" none none]
        , .bulleted [.text "D" none none] false [] ] fs
      = (["<ul>\n<li>A</li>\n<li>B</li>\n</ul>", "<p>C</p>", "<ul>\n<li>D</li>\n</ul>"], fs)) := by
  refine ⟨?_, ?_, ?_⟩
  · intro env slug run post fs hne hall hpost
    obtain ⟨b, runTail, rfl⟩ := List.exists_cons_of_ne_nil hne
    have hb : isBulleted b = true := hall b (List.mem_cons_self b runTail)
    have hall' : ∀ x ∈ runTail, isBulleted x = true :=
      fun x hx => hall x (List.mem_cons_of_mem b hx)
    have htw : (runTail ++ post).takeWhile isBulleted = runTail := by
      rw [takeWhile_append_of_all hall', takeWhile_eq_nil_of_head hpost, List.append_nil]
    have hdw : (runTail ++ post).dropWhile isBulleted = post := by
      rw [dropWhile_append_of_all hall', dropWhile_eq_self_of_head hpost]
    rw [List.cons_append, blocksToHtmlParts_cons_bulleted env slug b (runTail ++ post) fs hb,
      htw, hdw, pushPart_of_ne _ _ (by
        apply string_append_left_ne_empty
        apply string_append_left_ne_empty
        decide)]
  · intro env slug run post fs hne hall hpost
    obtain ⟨b, runTail, rfl⟩ := List.exists_cons_of_ne_nil hne
    have hb : isNumbered b = true := hall b (List.mem_cons_self b runTail)
    have hall' : ∀ x ∈ runTail, isNumbered x = true :=
      fun x hx => hall x (List.mem_cons_of_mem b hx)
    have htw : (runTail ++ post).takeWhile isNumbered = runTail := by
      rw [takeWhile_append_of_all hall', takeWhile_eq_nil_of_head hpost, List.append_nil]
    have hdw : (runTail ++ post).dropWhile isNumbered = post := by
      rw [dropWhile_append_of_all hall', dropWhile_eq_self_of_head hpost]
    rw [List.cons_append, blocksToHtmlParts_cons_numbered env slug b (runTail ++ post) fs hb,
      htw, hdw, pushPart_of_ne _ _ (by
        apply string_append_left_ne_empty
        apply string_append_left_ne_empty
        decide)]
  · intro env slug fs
    have e1 : List.takeWhile isBulleted
        [ Block.bulleted [.text "B" none none] false []
        , Block.paragraph [.text "C" none none]
        , Block.bulleted [.text "D" none none] false [] ]
        = [Block.bulleted [.text "B" none none] false []] := rfl
    have e2 : List.dropWhile isBulleted
        [ Block.bulleted [.text "B" none none] false []
        , Block.paragraph [.text "C" none none]
        , Block.bulleted [.text "D" none none] false [] ]
        = [ Block.paragraph [.text "C" none none]
          , Block.bulleted [.text "D" none none] false [] ] := rfl
    rw [blocksToHtmlParts_cons_bulleted env slug (.bulleted [.text "A" none none] false [])
      [ .bulleted [.text "B" none none] false []
      , .paragraph [.text "C" none none]
      , .bulleted [.text "D" none none] false [] ] fs rfl, e1, e2]
    have e3 : renderListItems env slug
        [ Block.bulleted [.text "A" none none] false []
        , Block.bulleted [.text "B" none none] false [] ] fs
        = (["<li>A</li>", "<li>B</li>"], fs) := by
      simp only [renderListItems_cons, renderListItems_nil, listItemPayload]
      rfl
    have e4 : blocksToHtmlParts env slug
        [ Block.paragraph [.text "C" none none]
        , Block.bulleted [.text "D" none none] false [] ] fs
        = (["<p>C</p>", "<ul>\n<li>D</li>\n</ul>"], fs) := by
      rw [blocksToHtmlParts_cons_single env slug (.paragraph [.text "C" none none])
        [.bulleted [.text "D" none none] false []] fs rfl rfl]
      have hpar : blockHtml env slug (.paragraph [.text "C" none none]) fs
          = ("<p>C</p>", fs) := by
        rw [blockHtml]
        rfl
      rw [hpar]
      rw [blocksToHtmlParts_cons_bulleted env slug (.bulleted [.text "D" none none] false [])
        [] fs rfl]
      have e5 : renderListItems env slug [Block.bulleted [.text "D" none none] false []] fs
          = (["<li>D</li>"], fs) := by
        simp only [renderListItems_cons, renderListItems_nil, listItemPayload]
        rfl
      have e6 : List.takeWhile isBulleted ([] : List Block) = [] := rfl
      have e7 : List.dropWhile isBulleted ([] : List Block) = [] := rfl
      rw [e6, e7, e5, blocksToHtmlParts_nil]
      rfl
    rw [e3, e4]
    rfl

/-- C3 witness: the grouping equation applied to the concrete run
`[bulleted A]` followed by `[paragraph C]`. -/
theorem c3_list_grouping_witness :
    (([Block.bulleted [.text "A" none none] false []] : List Block) ≠ []) ∧
    (∀ b ∈ ([Block.bulleted [.text "A" none none] false []] : List Block),
      isBulleted b = true) ∧
    (∀ b ∈ ([Block.paragraph [.text "C" none none]] : List Block).head?,
      isBulleted b = false) ∧
    blocksToHtmlParts cexEnv404 "post"
        ([Block.bulleted [.text "A" none none] false []]
          ++ [Block.paragraph [.text "C" none none]]) [] =
      (("<ul>\n" ++ String.intercalate "\n"
          (renderListItems cexEnv404 "post"
            [Block.bulleted [.text "A" none none] false []] []).1 ++ "\n</ul>") ::
        (blocksToHtmlParts cexEnv404 "post" [Block.paragraph [.text "C" none none]]
          (renderListItems cexEnv404 "post"
            [Block.bulleted [.text "A" none none] false []] []).2).1,
       (blocksToHtmlParts cexEnv404 "post" [Block.paragraph [.text "C" none none]]
          (renderListItems cexEnv404 "post"
            [Block.bulleted [.text "A" none none] false []] []).2).2) := by
  refine ⟨by simp, ?_, ?_, ?_⟩
  · intro b hb
    rw [List.mem_singleton.mp hb]
    rfl
  · intro b hb
    have hbp : Block.paragraph [.text "C" none none] = b := by simpa using hb
    rw [← hbp]
    rfl
  · exact c3_list_grouping.1 cexEnv404 "post" _ _ []
      (by simp)
      (fun b hb => by rw [List.mem_singleton.mp hb]; rfl)
      (fun b hb => by
        have hbp : Block.paragraph [.text "C" none none] = b := by simpa using hb
        rw [← hbp]
        rfl)

/-- C4: when the image download fails (a `DownloadError` status rejection
or a `TransportError`), the render does not abort: the block's fragment
falls back to the original remote locator as the image source, unchanged,
and the remaining blocks are rendered in the post-download filesystem. -/
theorem c4_image_fallback (env : RenderEnv) (slug : String) (source : ImageSource)
    (caption : List RichText) (rest : List Block) (fs : Fs)
    (herr : (downloadImage env.md5hex env.net slug env.fuel fs (imageSourceUrl source)).1
        = .transportError ∨
      ∃ statusCode,
        (downloadImage env.md5hex env.net slug env.fuel fs (imageSourceUrl source)).1
          = .downloadError statusCode) :
    blocksToHtmlParts env slug (.image source caption :: rest) fs =
      (imageFigure (imageSourceUrl source)
          (if caption.length ≠ 0 then richTextToHtml env.fmtDate (some caption) else "") ::
        (blocksToHtmlParts env slug rest
          (downloadImage env.md5hex env.net slug env.fuel fs (imageSourceUrl source)).2).1,
       (blocksToHtmlParts env slug rest
          (downloadImage env.md5hex env.net slug env.fuel fs (imageSourceUrl source)).2).2) := by
  rw [blocksToHtmlParts_cons_single env slug (.image source caption) rest fs rfl rfl]
  have hbh : blockHtml env slug (.image source caption) fs =
      (imageFigure (imageSourceUrl source)
        (if caption.length ≠ 0 then richTextToHtml env.fmtDate (some caption) else ""),
       (downloadImage env.md5hex env.net slug env.fuel fs (imageSourceUrl source)).2) := by
    rw [blockHtml]
    rcases hdl : downloadImage env.md5hex env.net slug env.fuel fs (imageSourceUrl source)
      with ⟨r, fs2⟩
    rw [hdl] at herr
    rcases herr with h | ⟨c, h⟩
    · have hr : r = .transportError := h
      subst hr
      rfl
    · have hr : r = .downloadError c := h
      subst hr
      rfl
  rw [hbh, pushPart_of_ne _ _ (imageFigure_ne_empty _ _)]

/-- C4 witness: a concrete 404 download falls back to the remote URL. -/
theorem c4_image_fallback_witness :
    ((downloadImage cexEnv404.md5hex cexEnv404.net "post" cexEnv404.fuel []
        (imageSourceUrl (.external "https://x/a.png"))).1 = .transportError ∨
      ∃ statusCode,
        (downloadImage cexEnv404.md5hex cexEnv404.net "post" cexEnv404.fuel []
          (imageSourceUrl (.external "https://x/a.png"))).1
            = .downloadError statusCode) ∧
    blocksToHtmlParts cexEnv404 "post" [.image (.external "https://x/a.png") []] [] =
      (imageFigure (imageSourceUrl (.external "https://x/a.png"))
          (if ([] : List RichText).length ≠ 0 then
            richTextToHtml cexEnv404.fmtDate (some []) else "") ::
        (blocksToHtmlParts cexEnv404 "post" []
          (downloadImage cexEnv404.md5hex cexEnv404.net "post" cexEnv404.fuel []
            (imageSourceUrl (.external "https://x/a.png"))).2).1,
       (blocksToHtmlParts cexEnv404 "post" []
          (downloadImage cexEnv404.md5hex cexEnv404.net "post" cexEnv404.fuel []
            (imageSourceUrl (.external "https://x/a.png"))).2).2) :=
  ⟨Or.inr ⟨404, by decide⟩,
   c4_image_fallback cexEnv404 "post" (.external "https://x/a.png") [] [] []
     (Or.inr ⟨404, by decide⟩)⟩

/-! ## slugify lemmas (C10) -/

theorem noConsecHyphens_iff_chain (l : List Char) :
    noConsecHyphens l = true ↔ List.Chain' (fun a b => ¬(a = '-' ∧ b = '-')) l := by
  induction l with
  | nil => simp [noConsecHyphens]
  | cons c rest ih =>
    cases rest with
    | nil => simp [noConsecHyphens]
    | cons d rest2 =>
      rw [List.chain'_cons, ← ih]
      simp [noConsecHyphens]
      tauto

theorem noConsecHyphens_reverse {l : List Char} (h : noConsecHyphens l = true) :
    noConsecHyphens l.reverse = true := by
  rw [noConsecHyphens_iff_chain] at h ⊢
  rw [List.chain'_reverse]
  exact h.imp (fun a b hab => fun ⟨h1, h2⟩ => hab ⟨h2, h1⟩)

theorem noConsecHyphens_tail {c : Char} {l : List Char}
    (h : noConsecHyphens (c :: l) = true) : noConsecHyphens l = true := by
  cases l with
  | nil => rfl
  | cons d t =>
    simp only [noConsecHyphens, Bool.and_eq_true] at h
    exact h.2

theorem noConsecHyphens_cons_of {c : Char} {l : List Char}
    (h1 : noConsecHyphens l = true) (h2 : c = '-' → l.head? ≠ some '-') :
    noConsecHyphens (c :: l) = true := by
  cases l with
  | nil => rfl
  | cons d t =>
    simp only [noConsecHyphens, Bool.and_eq_true, Bool.not_eq_true', Bool.and_eq_false_iff]
    refine ⟨?_, h1⟩
    by_cases hc : c = '-'
    · have hd : d ≠ '-' := by
        intro hd
        exact h2 hc (by simp [hd])
      right
      simpa using hd
    · left
      simpa using hc

theorem noConsecHyphens_pair {l : List Char}
    (h : noConsecHyphens ('-' :: l) = true) : l.head? ≠ some '-' := by
  cases l with
  | nil => simp
  | cons d t =>
    simp only [noConsecHyphens, Bool.and_eq_true, Bool.not_eq_true', Bool.and_eq_false_iff] at h
    rcases h.1 with h' | h'
    · simp at h'
    · simp only [List.head?_cons, ne_eq, Option.some_inj]
      simpa using h'



theorem char_toNat_le_of_le {a c : Char} (h : a ≤ c) : a.toNat ≤ c.toNat := by
  rw [Char.le_def, UInt32.le_def, BitVec.le_def] at h
  exact h

theorem isAlnumChar_ne_hyphen {c : Char} (h : isAlnumChar c = true) : c ≠ '-' := by
  intro hc
  subst hc
  simp [isAlnumChar] at h

theorem toLower_fixes_slug_char {c : Char} (h : isAlnumChar c = true ∨ c = '-') :
    Char.toLower c = c := by
  unfold Char.toLower
  rcases h with h | rfl
  · simp only [isAlnumChar, Bool.or_eq_true, Bool.and_eq_true, decide_eq_true_eq] at h
    rcases h with ⟨h1, h2⟩ | ⟨h1, h2⟩
    · have g1 : (97 : Nat) ≤ c.toNat := char_toNat_le_of_le h1
      rw [if_neg]
      omega
    · have g2 : c.toNat ≤ 57 := char_toNat_le_of_le h2
      rw [if_neg]
      omega
  · decide

theorem collapseRuns_chars (flag : Bool) (l : List Char) :
    ∀ c ∈ collapseRuns flag l, isAlnumChar c = true ∨ c = '-' := by
  induction l generalizing flag with
  | nil => simp [collapseRuns]
  | cons c rest ih =>
    intro d hd
    by_cases hc : isAlnumChar c = true
    · rw [collapseRuns, if_pos hc] at hd
      rcases List.mem_cons.mp hd with h | h
      · exact Or.inl (h ▸ hc)
      · exact ih false d h
    · rw [collapseRuns, if_neg hc] at hd
      by_cases hflag : flag = true
      · rw [if_pos hflag] at hd
        exact ih true d hd
      · rw [if_neg hflag] at hd
        rcases List.mem_cons.mp hd with h | h
        · exact Or.inr h
        · exact ih true d h

theorem collapseRuns_good (l : List Char) :
    ∀ flag, noConsecHyphens (collapseRuns flag l) = true ∧
      ((collapseRuns true l).head? = some '-' → False) := by
  induction l with
  | nil => intro flag; exact ⟨rfl, by simp [collapseRuns]⟩
  | cons c rest ih =>
    intro flag
    by_cases hc : isAlnumChar c = true
    · constructor
      · rw [collapseRuns, if_pos hc]
        refine noConsecHyphens_cons_of (ih false).1 ?_
        intro hceq
        exact absurd hceq (isAlnumChar_ne_hyphen hc)
      · rw [collapseRuns, if_pos hc]
        intro hh
        simp only [List.head?_cons, Option.some_inj] at hh
        exact isAlnumChar_ne_hyphen hc hh
    · constructor
      · rw [collapseRuns, if_neg hc]
        by_cases hflag : flag = true
        · rw [if_pos hflag]
          exact (ih true).1
        · rw [if_neg hflag]
          refine noConsecHyphens_cons_of (ih true).1 ?_
          intro _
          intro hh
          exact (ih true).2 hh
      · rw [collapseRuns, if_neg hc, if_pos rfl]
        exact (ih true).2



theorem dropLeadHyphen_spec (l : List Char) :
    (l.head? ≠ some '-' ∧ dropLeadHyphen l = l) ∨
    (∃ t, l = '-' :: t ∧ dropLeadHyphen l = t) := by
  cases l with
  | nil => exact Or.inl ⟨by simp, rfl⟩
  | cons c t =>
    by_cases hc : c = '-'
    · subst hc
      exact Or.inr ⟨t, rfl, rfl⟩
    · left
      refine ⟨by simpa using hc, ?_⟩
      unfold dropLeadHyphen
      split
      · rename_i heq
        injection heq with h1 h2
        exact absurd h1 hc
      · rfl

theorem mem_dropLeadHyphen {c : Char} {l : List Char} (h : c ∈ dropLeadHyphen l) : c ∈ l := by
  rcases dropLeadHyphen_spec l with ⟨_, heq⟩ | ⟨t, hl, heq⟩
  · rwa [heq] at h
  · rw [heq] at h
    rw [hl]
    exact List.mem_cons_of_mem _ h

theorem noConsecHyphens_dropLeadHyphen {l : List Char} (h : noConsecHyphens l = true) :
    noConsecHyphens (dropLeadHyphen l) = true := by
  rcases dropLeadHyphen_spec l with ⟨_, heq⟩ | ⟨t, hl, heq⟩
  · rwa [heq]
  · rw [heq]
    rw [hl] at h
    exact noConsecHyphens_tail h

theorem head_dropLeadHyphen {l : List Char} (h : noConsecHyphens l = true) :
    (dropLeadHyphen l).head? ≠ some '-' := by
  rcases dropLeadHyphen_spec l with ⟨hh, heq⟩ | ⟨t, hl, heq⟩
  · rwa [heq]
  · rw [heq]
    rw [hl] at h
    exact noConsecHyphens_pair h

theorem mem_stripEdgeHyphens {c : Char} {l : List Char}
    (h : c ∈ stripEdgeHyphens l) : c ∈ l := by
  unfold stripEdgeHyphens at h
  rw [List.mem_reverse] at h
  have h2 := mem_dropLeadHyphen h
  rw [List.mem_reverse] at h2
  exact mem_dropLeadHyphen h2

theorem noConsecHyphens_stripEdgeHyphens {l : List Char} (h : noConsecHyphens l = true) :
    noConsecHyphens (stripEdgeHyphens l) = true := by
  unfold stripEdgeHyphens
  exact noConsecHyphens_reverse
    (noConsecHyphens_dropLeadHyphen
      (noConsecHyphens_reverse (noConsecHyphens_dropLeadHyphen h)))

theorem getLast_stripEdgeHyphens {l : List Char} (h : noConsecHyphens l = true) :
    (stripEdgeHyphens l).getLast? ≠ some '-' := by
  unfold stripEdgeHyphens
  rw [List.getLast?_reverse]
  exact head_dropLeadHyphen (noConsecHyphens_reverse (noConsecHyphens_dropLeadHyphen h))

theorem head_stripEdgeHyphens {l : List Char} (h : noConsecHyphens l = true) :
    (stripEdgeHyphens l).head? ≠ some '-' := by
  unfold stripEdgeHyphens
  rw [List.head?_reverse]
  have hm : (dropLeadHyphen l).head? ≠ some '-' := head_dropLeadHyphen h
  rcases dropLeadHyphen_spec (dropLeadHyphen l).reverse with ⟨hh, heq⟩ | ⟨t, hl, heq⟩
  · rw [heq, List.getLast?_reverse]
    exact hm
  · rw [heq]
    cases t with
    | nil =>
      simp
    | cons d t2 =>
      have hrev : (dropLeadHyphen l).reverse.getLast? = (dropLeadHyphen l).head? := by
        rw [List.getLast?_reverse]
      rw [hl] at hrev
      rw [List.getLast?_cons_cons] at hrev
      rw [hrev]
      exact hm



theorem dropLeadHyphen_of_head {l : List Char} (h : l.head? ≠ some '-') :
    dropLeadHyphen l = l := by
  rcases dropLeadHyphen_spec l with ⟨_, heq⟩ | ⟨t, hl, _⟩
  · exact heq
  · rw [hl] at h
    simp at h

theorem stripEdgeHyphens_id {l : List Char}
    (hh : l.head? ≠ some '-') (hl : l.getLast? ≠ some '-') :
    stripEdgeHyphens l = l := by
  unfold stripEdgeHyphens
  rw [dropLeadHyphen_of_head hh, dropLeadHyphen_of_head (by rw [List.head?_reverse]; exact hl),
    List.reverse_reverse]

theorem map_toLower_id {l : List Char} (h : ∀ c ∈ l, isAlnumChar c = true ∨ c = '-') :
    l.map Char.toLower = l := by
  induction l with
  | nil => rfl
  | cons c t ih =>
    rw [List.map_cons, toLower_fixes_slug_char (h c (List.mem_cons_self c t)),
      ih (fun d hd => h d (List.mem_cons_of_mem c hd))]

theorem collapseRuns_id (l : List Char) (flag : Bool)
    (hchars : ∀ c ∈ l, isAlnumChar c = true ∨ c = '-')
    (hnc : noConsecHyphens l = true)
    (hflag : flag = true → l.head? ≠ some '-') :
    collapseRuns flag l = l := by
  induction l generalizing flag with
  | nil => rfl
  | cons c rest ih =>
    by_cases hc : isAlnumChar c = true
    · rw [collapseRuns, if_pos hc,
        ih false (fun d hd => hchars d (List.mem_cons_of_mem c hd)) (noConsecHyphens_tail hnc)
          (by simp)]
    · have hch : c = '-' := by
        rcases hchars c (List.mem_cons_self c rest) with h | h
        · exact absurd h hc
        · exact h
      subst hch
      cases flag with
      | true => exact absurd rfl (fun h => hflag h (by simp))
      | false =>
        rw [collapseRuns, if_neg hc, if_neg (by decide)]
        rw [ih true (fun d hd => hchars d (List.mem_cons_of_mem _ hd)) (noConsecHyphens_tail hnc)
          (fun _ => noConsecHyphens_pair hnc)]

theorem noConsecHyphens_getElem {l : List Char} (h : noConsecHyphens l = true) :
    ∀ n : Nat, ¬(l[n]? = some '-' ∧ l[n + 1]? = some '-') := by
  induction l with
  | nil => intro n hn; simp at hn
  | cons c t ih =>
    intro n hpair
    cases n with
    | zero =>
      have hc : c = '-' := by simpa using hpair.1
      subst hc
      have hpr := noConsecHyphens_pair h
      cases t with
      | nil => simp at hpair
      | cons d t2 =>
        have hd : d = '-' := by simpa using hpair.2
        exact hpr (by simp [hd])
    | succ n =>
      exact ih (noConsecHyphens_tail h) n
        ⟨by simpa using hpair.1, by simpa using hpair.2⟩

/-- C10: every character of a slug is a lowercase ASCII letter, a digit
or a hyphen; no two adjacent characters are both hyphens; the slug
neither starts nor ends with a hyphen; and slugify is idempotent. -/
theorem c10_slugify_shape (s : String) :
    (∀ c ∈ (slugify s).toList, ('a' ≤ c ∧ c ≤ 'z') ∨ ('0' ≤ c ∧ c ≤ '9') ∨ c = '-') ∧
    (∀ n : Nat, ¬((slugify s).toList[n]? = some '-' ∧ (slugify s).toList[n + 1]? = some '-')) ∧
    (slugify s).toList.head? ≠ some '-' ∧
    (slugify s).toList.getLast? ≠ some '-' ∧
    slugify (slugify s) = slugify s := by
  have hchars : ∀ c ∈ (slugify s).toList, isAlnumChar c = true ∨ c = '-' :=
    fun c hc => collapseRuns_chars false (s.toList.map Char.toLower) c (mem_stripEdgeHyphens hc)
  have hnc : noConsecHyphens (slugify s).toList = true :=
    noConsecHyphens_stripEdgeHyphens ((collapseRuns_good (s.toList.map Char.toLower)) false).1
  have hhead : (slugify s).toList.head? ≠ some '-' :=
    head_stripEdgeHyphens ((collapseRuns_good (s.toList.map Char.toLower)) false).1
  have hlast : (slugify s).toList.getLast? ≠ some '-' :=
    getLast_stripEdgeHyphens ((collapseRuns_good (s.toList.map Char.toLower)) false).1
  refine ⟨?_, fun n => noConsecHyphens_getElem hnc n, hhead, hlast, ?_⟩
  · intro c hc
    rcases hchars c hc with h | h
    · simp only [isAlnumChar, Bool.or_eq_true, Bool.and_eq_true, decide_eq_true_eq] at h
      tauto
    · exact Or.inr (Or.inr h)
  · show String.mk (stripEdgeHyphens (collapseRuns false
      ((slugify s).toList.map Char.toLower))) = slugify s
    rw [map_toLower_id hchars,
      collapseRuns_id (slugify s).toList false hchars hnc (by simp),
      stripEdgeHyphens_id hhead hlast]
    rfl

/-- C10 witness: the shape properties at a concrete title. -/
theorem c10_slugify_shape_witness :
    slugify "Hello, World!" = "hello-world" ∧
    slugify (slugify "Hello, World!") = slugify "Hello, World!" :=
  ⟨by decide, (c10_slugify_shape "Hello, World!").2.2.2.2⟩

end NotionSync
